/-
  Verification of the wallet storage backends of this repository.

  Part 1: shallow embedding of the relational (Postgres) storage backend
  (src/libindy/src/services/wallet/storage/postgres/mod.rs).

  Bytes (Rust `Vec<u8>` / SQL BYTEA) are modelled as `List Nat`; the store
  treats them as opaque, so only equality matters.  The database of one
  wallet is a `DBState`: the `items`, `tags_encrypted` and `tags_plaintext`
  tables as Lean lists plus the BIGSERIAL counter feeding `items.id`.
  A SQL transaction that is dropped before `commit` rolls back, so an
  operation made of several statements is embedded as a function
  `DBState → Except WalletStorageError DBState`: an `.error` result returns
  no successor state, which is exactly the rollback semantics.
-/
import Mathlib

namespace IndyWallet

/-- `EncryptedValue` of the storage layer: fixed-length key bytes plus data
bytes (fields as in the Rust struct; `EncryptedValue::new(data, key)`). -/
structure EncryptedValue where
  data : List Nat
  key : List Nat
deriving DecidableEq

/-- The `Tag` enum of the storage layer: `Tag::Encrypted(name, value)` with
byte-blob value, or `Tag::PlainText(name, value)` with UTF-8 string value. -/
inductive Tag where
  | encrypted (name : List Nat) (value : List Nat)
  | plainText (name : List Nat) (value : String)
deriving DecidableEq

/-- The `WalletStorageError` variants reachable from the embedded
operations of the Postgres backend. -/
inductive WalletStorageError where
  | itemNotFound
  | itemAlreadyExists
  | ioError (msg : String)
  | invalidState (msg : String)
deriving DecidableEq

/-- One row of the `items` table:
`items(id BIGSERIAL PRIMARY KEY, type, name, value, key BYTEA)` with the
unique index `ux_items_type_name ON items(type, name)`. -/
structure DBRow where
  id : Int
  type_ : List Nat
  name : List Nat
  value : List Nat
  key : List Nat
deriving DecidableEq

/-- One row of `tags_encrypted(name BYTEA, value BYTEA, item_id BIGINT,
PRIMARY KEY(name, item_id), FOREIGN KEY(item_id) REFERENCES items(id))`. -/
structure TagRowE where
  name : List Nat
  value : List Nat
  item_id : Int
deriving DecidableEq

/-- One row of `tags_plaintext(name BYTEA, value TEXT, item_id BIGINT,
PRIMARY KEY(name, item_id), FOREIGN KEY(item_id) REFERENCES items(id))`. -/
structure TagRowP where
  name : List Nat
  value : String
  item_id : Int
deriving DecidableEq

/-- The state of one wallet database: the three record-level tables plus
the next value of the `items.id` BIGSERIAL sequence. -/
structure DBState where
  items : List DBRow
  tagsEnc : List TagRowE
  tagsPlain : List TagRowP
  nextId : Int
deriving DecidableEq

/-- Errors surfaced by the SQL layer to the backend code; the backend
inspects `err.code()` for `UNIQUE_VIOLATION` and
`INTEGRITY_CONSTRAINT_VIOLATION`. -/
inductive SqlErr where
  | uniqueViolation
  | integrityViolation
deriving DecidableEq

/-- `INSERT INTO items (type, name, value, key) VALUES ($1,$2,$3,$4)
RETURNING id`: fails with a unique violation when a row with the same
`(type, name)` exists (index `ux_items_type_name`), otherwise appends a row
with the next serial id and returns that id. -/
def itemsInsert (db : DBState) (type_ name value key : List Nat) :
    Except SqlErr (DBState × Int) :=
  if db.items.any (fun r => r.type_ == type_ && r.name == name) then
    .error .uniqueViolation
  else
    .ok ({ db with
            items := db.items ++ [⟨db.nextId, type_, name, value, key⟩],
            nextId := db.nextId + 1 },
         db.nextId)

/-- `INSERT INTO tags_encrypted (item_id, name, value) VALUES ($1,$2,$3)`:
fails with a unique violation on the primary key `(name, item_id)`, with an
integrity violation when the foreign key to `items(id)` dangles, otherwise
appends the row. -/
def tagsEncInsert (db : DBState) (itemId : Int) (name value : List Nat) :
    Except SqlErr DBState :=
  if db.tagsEnc.any (fun r => r.name == name && r.item_id == itemId) then
    .error .uniqueViolation
  else if !(db.items.any (fun r => r.id == itemId)) then
    .error .integrityViolation
  else
    .ok { db with tagsEnc := db.tagsEnc ++ [⟨name, value, itemId⟩] }

/-- `INSERT INTO tags_plaintext (item_id, name, value) VALUES ($1,$2,$3)`,
analogous to `tagsEncInsert`. -/
def tagsPlainInsert (db : DBState) (itemId : Int) (name : List Nat)
    (value : String) : Except SqlErr DBState :=
  if db.tagsPlain.any (fun r => r.name == name && r.item_id == itemId) then
    .error .uniqueViolation
  else if !(db.items.any (fun r => r.id == itemId)) then
    .error .integrityViolation
  else
    .ok { db with tagsPlain := db.tagsPlain ++ [⟨name, value, itemId⟩] }

/-- The tag-insertion loop of `PostgresStorage::add`: one plain INSERT per
tag (no ON CONFLICT clause); a unique or integrity violation is mapped to
`ItemAlreadyExists` and aborts the whole transaction. -/
def addInsertTags (db : DBState) (itemId : Int) :
    List Tag → Except WalletStorageError DBState
  | [] => .ok db
  | Tag.encrypted n v :: rest =>
    match tagsEncInsert db itemId n v with
    | .ok db' => addInsertTags db' itemId rest
    | .error _ => .error .itemAlreadyExists
  | Tag.plainText n v :: rest =>
    match tagsPlainInsert db itemId n v with
    | .ok db' => addInsertTags db' itemId rest
    | .error _ => .error .itemAlreadyExists

/-- `PostgresStorage::add`: inside one transaction, insert the items row
(unique/integrity violation ↦ `ItemAlreadyExists`), capture the generated
id, then insert every tag; any error rolls the transaction back, so no
successor state is produced. -/
def add (db : DBState) (type_ id_ : List Nat) (value : EncryptedValue)
    (tags : List Tag) : Except WalletStorageError DBState :=
  match itemsInsert db type_ id_ value.data value.key with
  | .error _ => .error .itemAlreadyExists
  | .ok (db1, itemId) => addInsertTags db1 itemId tags

/-- The fetch options of the storage contract
(`retrieveType` / `retrieveValue` / `retrieveTags`). -/
structure RecordOptions where
  retrieve_type : Bool
  retrieve_value : Bool
  retrieve_tags : Bool
deriving DecidableEq

/-- A record returned from the storage layer:
`StorageRecord::new(name, value, type_, tags)`. -/
structure StorageRecord where
  id : List Nat
  value : Option EncryptedValue
  type_ : Option (List Nat)
  tags : Option (List Tag)
deriving DecidableEq

/-- Direct tag retrieval of `PostgresStorage::get`: all rows of
`tags_encrypted` with this `item_id`, then all rows of `tags_plaintext`. -/
def getTagsDirect (db : DBState) (itemId : Int) : List Tag :=
  (db.tagsEnc.filter (fun r => r.item_id == itemId)).map
      (fun r => Tag.encrypted r.name r.value)
    ++ (db.tagsPlain.filter (fun r => r.item_id == itemId)).map
      (fun r => Tag.plainText r.name r.value)

/-- `PostgresStorage::get`: `SELECT id, value, key FROM items WHERE type = $1
AND name = $2`, first row or `ItemNotFound`; the value, type and tags are
materialized per the fetch options. -/
def get (db : DBState) (type_ id_ : List Nat) (options : RecordOptions) :
    Except WalletStorageError StorageRecord :=
  match db.items.find? (fun r => r.type_ == type_ && r.name == id_) with
  | none => .error .itemNotFound
  | some row =>
    .ok { id := id_
          value := if options.retrieve_value
                   then some ⟨row.value, row.key⟩ else none
          type_ := if options.retrieve_type then some type_ else none
          tags := if options.retrieve_tags
                  then some (getTagsDirect db row.id) else none }

/-- `PostgresStorage::update`: `UPDATE items SET value = $1, key = $2 WHERE
type = $3 AND name = $4`; row count 1 ↦ Ok, 0 ↦ `ItemNotFound`, anything
else ↦ `InvalidState`. -/
def update (db : DBState) (type_ id_ : List Nat) (value : EncryptedValue) :
    Except WalletStorageError DBState :=
  let cnt := (db.items.filter (fun r => r.type_ == type_ && r.name == id_)).length
  if cnt = 1 then
    .ok { db with
          items := db.items.map (fun r =>
            if r.type_ == type_ && r.name == id_ then
              { r with value := value.data, key := value.key }
            else r) }
  else if cnt = 0 then
    .error .itemNotFound
  else
    .error (.invalidState "update row count")

/-- `INSERT INTO tags_encrypted (item_id, name, value) VALUES ($1,$2,$3)
ON CONFLICT (name, item_id) DO UPDATE SET value = excluded.value`: on a
primary-key conflict the existing row's value is replaced, otherwise the
row is appended (the foreign key can still fire). -/
def tagsEncUpsert (db : DBState) (itemId : Int) (name value : List Nat) :
    Except SqlErr DBState :=
  if db.tagsEnc.any (fun r => r.name == name && r.item_id == itemId) then
    .ok { db with tagsEnc := db.tagsEnc.map (fun r =>
            if r.name == name && r.item_id == itemId then
              { r with value := value }
            else r) }
  else if !(db.items.any (fun r => r.id == itemId)) then
    .error .integrityViolation
  else
    .ok { db with tagsEnc := db.tagsEnc ++ [⟨name, value, itemId⟩] }

/-- `INSERT INTO tags_plaintext … ON CONFLICT (name, item_id) DO UPDATE SET
value = excluded.value`, analogous to `tagsEncUpsert`. -/
def tagsPlainUpsert (db : DBState) (itemId : Int) (name : List Nat)
    (value : String) : Except SqlErr DBState :=
  if db.tagsPlain.any (fun r => r.name == name && r.item_id == itemId) then
    .ok { db with tagsPlain := db.tagsPlain.map (fun r =>
            if r.name == name && r.item_id == itemId then
              { r with value := value }
            else r) }
  else if !(db.items.any (fun r => r.id == itemId)) then
    .error .integrityViolation
  else
    .ok { db with tagsPlain := db.tagsPlain ++ [⟨name, value, itemId⟩] }

/-- The tag loop of `PostgresStorage::add_tags`: one upsert per tag; a
unique or integrity violation is mapped to `ItemAlreadyExists`. -/
def addTagsLoop (db : DBState) (itemId : Int) :
    List Tag → Except WalletStorageError DBState
  | [] => .ok db
  | Tag.encrypted n v :: rest =>
    match tagsEncUpsert db itemId n v with
    | .ok db' => addTagsLoop db' itemId rest
    | .error _ => .error .itemAlreadyExists
  | Tag.plainText n v :: rest =>
    match tagsPlainUpsert db itemId n v with
    | .ok db' => addTagsLoop db' itemId rest
    | .error _ => .error .itemAlreadyExists

/-- `PostgresStorage::add_tags`: inside one transaction, `SELECT id FROM
items WHERE type = $1 AND name = $2` (`ItemNotFound` when absent), then one
`INSERT … ON CONFLICT … DO UPDATE` per tag. -/
def add_tags (db : DBState) (type_ id_ : List Nat) (tags : List Tag) :
    Except WalletStorageError DBState :=
  match db.items.find? (fun r => r.type_ == type_ && r.name == id_) with
  | none => .error .itemNotFound
  | some row => addTagsLoop db row.id tags

/-- The tag loop of `PostgresStorage::update_tags`: plain INSERTs whose SQL
errors propagate via `?` (mapped to `IOError` at the boundary). -/
def updateTagsLoop (db : DBState) (itemId : Int) :
    List Tag → Except WalletStorageError DBState
  | [] => .ok db
  | Tag.encrypted n v :: rest =>
    match tagsEncInsert db itemId n v with
    | .ok db' => updateTagsLoop db' itemId rest
    | .error _ => .error (.ioError "tag insert failed")
  | Tag.plainText n v :: rest =>
    match tagsPlainInsert db itemId n v with
    | .ok db' => updateTagsLoop db' itemId rest
    | .error _ => .error (.ioError "tag insert failed")

/-- `PostgresStorage::update_tags`: inside one transaction, `SELECT id FROM
items WHERE type = $1 AND name = $2` (`ItemNotFound` when absent), then
`DELETE FROM tags_encrypted WHERE item_id = $1` and likewise for
`tags_plaintext`, then insert the new tag set. -/
def update_tags (db : DBState) (type_ id_ : List Nat) (tags : List Tag) :
    Except WalletStorageError DBState :=
  match db.items.find? (fun r => r.type_ == type_ && r.name == id_) with
  | none => .error .itemNotFound
  | some row =>
    let db1 := { db with
        tagsEnc := db.tagsEnc.filter (fun r => !(r.item_id == row.id)),
        tagsPlain := db.tagsPlain.filter (fun r => !(r.item_id == row.id)) }
    updateTagsLoop db1 row.id tags

/-- Tag retrieval of `TagRetriever::retrieve` used by the iterator: all
`tags_plaintext` rows of the item first, then all `tags_encrypted` rows
(the opposite order of `get`'s direct retrieval). -/
def tagRetrieve (db : DBState) (itemId : Int) : List Tag :=
  (db.tagsPlain.filter (fun r => r.item_id == itemId)).map
      (fun r => Tag.plainText r.name r.value)
    ++ (db.tagsEnc.filter (fun r => r.item_id == itemId)).map
      (fun r => Tag.encrypted r.name r.value)

/-- `PostgresStorageIterator`: the materialized result rows of
`SELECT id, name, value, key, type FROM items` (`none` when records were
not requested), the optional `TagRetriever` (a prepared-statement pair
bound to the same connection, so in the embedding a mere presence marker),
the fetch options, the cached total count and the `iter_count` cursor. -/
structure PGIterator where
  rows : Option (List DBRow)
  tagRetriever : Option Unit
  options : RecordOptions
  total_count : Option Nat
  iter_count : Nat
deriving DecidableEq

/-- The record materialized by `PostgresStorageIterator::next` from one
result row, per the fetch options (columns by position:
id, name, value, key, type). -/
def rowToRecord (db : DBState) (options : RecordOptions) (row : DBRow) :
    StorageRecord :=
  { id := row.name
    value := if options.retrieve_value then some ⟨row.value, row.key⟩ else none
    type_ := if options.retrieve_type then some row.type_ else none
    tags := if options.retrieve_tags then some (tagRetrieve db row.id) else none }

/-- `PostgresStorageIterator::next`: `Ok(None)` when records were not
requested; otherwise take row number `iter_count` of the result set
(`rows.iter().nth(iter_count)`), increment the cursor and materialize the
record — failing with `InvalidState` when tags were requested but no tag
retriever is present; past the result set return `Ok(None)` and leave the
cursor alone. -/
def iterNext (db : DBState) (it : PGIterator) :
    Except WalletStorageError (Option StorageRecord) × PGIterator :=
  match it.rows with
  | none => (.ok none, it)
  | some rs =>
    if h : it.iter_count < rs.length then
      let row := rs.get ⟨it.iter_count, h⟩
      let it' := { it with iter_count := it.iter_count + 1 }
      if it.options.retrieve_tags && it.tagRetriever.isNone then
        (.error (.invalidState "Fetch tags option set and tag retriever is None"), it')
      else
        (.ok (some (rowToRecord db it.options row)), it')
    else
      (.ok none, it)

/-- A sequence of `n` calls to `next` on the same iterator, collecting each
call's result. -/
def runNexts (db : DBState) :
    PGIterator → Nat → List (Except WalletStorageError (Option StorageRecord))
  | _, 0 => []
  | it, n + 1 => (iterNext db it).1 :: runNexts db (iterNext db it).2 n

/-
  Part 2: shallow embedding of the remote/virtual wallet backend
  (src/libindy/src/services/wallet/remote.rs).

  The HTTP transport (utils/proxy.rs) is abstracted away: the REST server
  reached by `GET {base}/keyval/{wallet}/{type}/{id}/` is modelled as a
  list of `ServerItem` rows filtered by (wallet_name, item_type, item_id),
  which is the semantic content of the URL composed by
  `rest_endpoint_for_resource_id`; the server is assumed reachable and its
  responses well-formed, so the network-failure arms of the source (all
  mapped to `NotFound`) are not exercised.  A Rust `panic!` (an unwind, not
  a typed error) is a distinct outcome constructor `panicked`.
-/

/-- The `WalletError` variants reachable from the embedded remote
operations. -/
inductive WalletError where
  | notFound (msg : String)
  | invalidStructure (msg : String)
deriving DecidableEq

/-- Outcome of a remote-wallet operation: a value, a typed `WalletError`,
or a Rust panic carrying the panic message. -/
inductive RemoteOutcome (α : Type) where
  | ok (a : α)
  | err (e : WalletError)
  | panicked (msg : String)
deriving DecidableEq

/-- Whether an outcome is a panic. -/
def RemoteOutcome.isPanicked : RemoteOutcome α → Bool
  | .panicked _ => true
  | _ => false

/-- Whether an outcome is a typed `InvalidStructure` error. -/
def RemoteOutcome.isInvalidStructureErr : RemoteOutcome α → Bool
  | .err (.invalidStructure _) => true
  | _ => false

/-- `RemoteWalletRuntimeConfig`: the REST endpoint and the freshness window
in seconds (an `i64`, so any integer). -/
structure RemoteWalletRuntimeConfig where
  endpoint : String
  freshness_time : Int
deriving DecidableEq

/-- `RemoteWalletCredentials`: optional auth token and optional virtual
wallet name. -/
structure RemoteWalletCredentials where
  auth_token : Option String
  virtual_wallet : Option String
deriving DecidableEq

/-- The `RemoteWallet` handle. -/
structure RemoteWallet where
  wallet_name : String
  pool_name : String
  config : RemoteWalletRuntimeConfig
  credentials : RemoteWalletCredentials
deriving DecidableEq

/-- One record of the REST server's keyval store, with the object keys of
the JSON wire format; `created` is the UTC creation timestamp in whole
seconds (the source parses the ISO string and compares second counts). -/
structure ServerItem where
  wallet_name : String
  item_type : String
  item_id : String
  item_value : String
  id : String
  created : Int
deriving DecidableEq

/-- The REST server state: the keyval rows plus the counter from which the
server assigns fresh numeric ids on POST. -/
structure ServerState where
  items : List ServerItem
  nextId : Nat
deriving DecidableEq

/-- `root_wallet_name`: the root wallet is addressed by the wallet name
itself. -/
def rootWalletName (wallet_name : String) : String :=
  wallet_name

/-- `virtual_wallet_name`: the `virtual_wallet` credential field when
present, else the wallet name. -/
def virtualWalletName (wallet_name : String)
    (credentials : RemoteWalletCredentials) : String :=
  match credentials.virtual_wallet with
  | some s => s
  | none => wallet_name

/-- `in_virtual_wallet`: true when the current virtual wallet name differs
from the root wallet name. -/
def inVirtualWallet (root virt : String) : Bool :=
  root != virt

/-- `rest_auth_header`: builds the `Authorization: Token …` headers, and
panics when the credentials carry no auth token. -/
def restAuthHeader (credentials : RemoteWalletCredentials) :
    RemoteOutcome String :=
  match credentials.auth_token with
  | some s => .ok ("Token " ++ s)
  | none => .panicked "Error no authentication token provided"

/-- Rust's `str::split("::")` on the character list of a key: the pieces
between non-overlapping left-to-right occurrences of the two-colon
delimiter (written structurally recursively so that concrete keys
evaluate). -/
def splitSep : List Char → List (List Char)
  | [] => [[]]
  | ':' :: ':' :: rest => [] :: splitSep rest
  | c :: rest =>
    match splitSep rest with
    | [] => [[c]]
    | g :: gs => (c :: g) :: gs

/-- `key_to_item_type_id`: split the key on `"::"`; exactly two pieces give
`(item_type, item_id)`, anything else panics. -/
def keyToItemTypeId (key : String) : RemoteOutcome (String × String) :=
  match splitSep key.toList with
  | [a, b] => .ok (⟨a⟩, ⟨b⟩)
  | _ => .panicked ("Error invalid key " ++ key)

/-- `key_prefix_to_type`: the piece before the first `"::"` (the split list
is never empty, so the panic arm of the source is dead). -/
def keyPrefixToType (p : String) : RemoteOutcome String :=
  match splitSep p.toList with
  | t :: _ => .ok ⟨t⟩
  | [] => .panicked ("Error invalid format on key prefix " ++ p)

/-- The rows the server returns for
`GET {base}/keyval/{wallet}/{type}/{id}/`. -/
def serverLookup (items : List ServerItem) (w t i : String) :
    List ServerItem :=
  items.filter (fun r => r.wallet_name == w && r.item_type == t && r.item_id == i)

/-- A one-line stand-in for Rust's `format!("{:?}", err)` on a
`WalletError`, used where the source re-wraps an error's debug text. -/
def fmtWalletError : WalletError → String
  | .notFound m => "NotFound " ++ m
  | .invalidStructure m => "InvalidStructure " ++ m

/-- `call_get_internal`: parse the key (panics when malformed), build the
auth headers (panics without a token), fetch the matching rows from
`wallet_name`'s keyval collection; zero rows or more than one row give
`NotFound`, one row gives `(id, item_value)`. -/
def callGetInternal (server : List ServerItem) (wallet_name : String)
    (credentials : RemoteWalletCredentials) (key : String) :
    RemoteOutcome (String × String) :=
  match keyToItemTypeId key with
  | .panicked m => .panicked m
  | .err e => .err e
  | .ok (item_type, item_id) =>
    match restAuthHeader credentials with
    | .panicked m => .panicked m
    | .err e => .err e
    | .ok _ =>
      match serverLookup server wallet_name item_type item_id with
      | [] => .err (.notFound "Error Item not found")
      | [v] => .ok (v.id, v.item_value)
      | _ => .err (.notFound "Error Multiple Items found")

/-- `RemoteWallet::get` with an added observable: the list of wallet names
it looked the key up in, in order.  On any failure of the first lookup,
and only when the current virtual wallet differs from the root, the key is
looked up once more against the root wallet; errors of the second lookup
(or of the first, when no retry happens) are re-wrapped as `NotFound`. -/
def remoteGetTrace (server : List ServerItem) (w : RemoteWallet)
    (key : String) : RemoteOutcome String × List String :=
  let root := rootWalletName w.wallet_name
  let virt := virtualWalletName w.wallet_name w.credentials
  match callGetInternal server virt w.credentials key with
  | .ok (_, record) => (.ok record, [virt])
  | .panicked m => (.panicked m, [virt])
  | .err why =>
    if inVirtualWallet root virt then
      match callGetInternal server root w.credentials key with
      | .ok (_, record2) => (.ok record2, [virt, root])
      | .panicked m => (.panicked m, [virt, root])
      | .err why2 => (.err (.notFound (fmtWalletError why2)), [virt, root])
    else
      (.err (.notFound (fmtWalletError why)), [virt])

/-- `RemoteWallet::get`: the outcome component of the traced embedding. -/
def remoteGet (server : List ServerItem) (w : RemoteWallet) (key : String) :
    RemoteOutcome String :=
  (remoteGetTrace server w key).1

/-- `RemoteWallet::set` at time `now`: parse the key (panics when
malformed), probe with `call_get_internal` for an existing server id
(errors swallowed into "no id"), build the auth headers (panics without a
token), then `PUT` to the item with that id — the server replaces the
row's wallet/type/id/value — or `POST` a new row, to which the server
assigns the next numeric id and `created = now`. -/
def remoteSet (srv : ServerState) (now : Int) (w : RemoteWallet)
    (key value : String) : RemoteOutcome ServerState :=
  match keyToItemTypeId key with
  | .panicked m => .panicked m
  | .err e => .err e
  | .ok (item_type, item_id) =>
    let virt := virtualWalletName w.wallet_name w.credentials
    match callGetInternal srv.items virt w.credentials key with
    | .panicked m => .panicked m
    | probe =>
      let tmp_id := match probe with
        | .ok (id, _) => id
        | _ => ""
      match restAuthHeader w.credentials with
      | .panicked m => .panicked m
      | .err e => .err e
      | .ok _ =>
        if tmp_id.length > 0 then
          .ok { srv with items := srv.items.map (fun r =>
            if r.id == tmp_id then
              { r with wallet_name := virt, item_type := item_type,
                       item_id := item_id, item_value := value }
            else r) }
        else
          .ok { srv with
            items := srv.items ++
              [⟨virt, item_type, item_id, value, toString srv.nextId, now⟩],
            nextId := srv.nextId + 1 }

/-- `RemoteWallet::list`: derive the item type from the key prefix, build
the auth headers (panics without a token), fetch every row of that type in
the current virtual wallet only, and return `(item_type::item_id,
item_value)` pairs; no root fallback. -/
def remoteList (srv : ServerState) (w : RemoteWallet) (p : String) :
    RemoteOutcome (List (String × String)) :=
  match keyPrefixToType p with
  | .panicked m => .panicked m
  | .err e => .err e
  | .ok item_type =>
    let virt := virtualWalletName w.wallet_name w.credentials
    match restAuthHeader w.credentials with
    | .panicked m => .panicked m
    | .err e => .err e
    | .ok _ =>
      .ok ((srv.items.filter (fun r =>
              r.wallet_name == virt && r.item_type == item_type)).map
            (fun r => (r.item_type ++ "::" ++ r.item_id, r.item_value)))

/-- `RemoteWallet::get_not_expired` at time `now`: like the first lookup of
`get` (no root fallback), but when exactly one row comes back, surface
`NotFound` carrying the key whenever `freshness_time != 0` and
`now - created` in whole seconds exceeds `freshness_time`; otherwise return
the stored item value. -/
def getNotExpired (server : List ServerItem) (now : Int) (w : RemoteWallet)
    (key : String) : RemoteOutcome String :=
  match keyToItemTypeId key with
  | .panicked m => .panicked m
  | .err e => .err e
  | .ok (item_type, item_id) =>
    let virt := virtualWalletName w.wallet_name w.credentials
    match restAuthHeader w.credentials with
    | .panicked m => .panicked m
    | .err e => .err e
    | .ok _ =>
      match serverLookup server virt item_type item_id with
      | [] => .err (.notFound "Error Item not found")
      | [v] =>
        if w.config.freshness_time != 0
            && now - v.created > w.config.freshness_time then
          .err (.notFound key)
        else
          .ok v.item_value
      | _ => .err (.notFound "Error Multiple Items found")

/-
  Part 3: theorems about the relational backend.
-/

/-- The `tags_encrypted` rows that inserting the tag list `ts` for item
`i` produces, in order. -/
def encRowsOf (i : Int) (ts : List Tag) : List TagRowE :=
  ts.filterMap fun t => match t with
    | .encrypted n v => some ⟨n, v, i⟩
    | .plainText _ _ => none

/-- The `tags_plaintext` rows that inserting the tag list `ts` for item
`i` produces, in order. -/
def plainRowsOf (i : Int) (ts : List Tag) : List TagRowP :=
  ts.filterMap fun t => match t with
    | .encrypted _ _ => none
    | .plainText n v => some ⟨n, v, i⟩

/-- Two tags collide on the per-variant tag namespace: same variant and
same name. -/
def sameVariantName : Tag → Tag → Bool
  | .encrypted n _, .encrypted m _ => n == m
  | .plainText n _, .plainText m _ => n == m
  | _, _ => false

/-- The tag list contains two entries with the same variant and name. -/
def hasDupTagName : List Tag → Bool
  | [] => false
  | t :: rest => rest.any (fun u => sameVariantName t u) || hasDupTagName rest

/-- The `(type, id)` key is unique across the `items` rows (the invariant
the unique index `ux_items_type_name` maintains). -/
def uniqueKeys (db : DBState) : Prop :=
  db.items.Pairwise (fun a b => ¬(a.type_ = b.type_ ∧ a.name = b.name))

theorem itemsInsert_ok {db : DBState} {t n v k : List Nat} {db' : DBState}
    {id : Int} (h : itemsInsert db t n v k = .ok (db', id)) :
    db.items.any (fun r => r.type_ == t && r.name == n) = false ∧
    db' = { db with items := db.items ++ [⟨db.nextId, t, n, v, k⟩],
                    nextId := db.nextId + 1 } ∧
    id = db.nextId := by
  unfold itemsInsert at h
  split at h
  · cases h
  · next hc =>
    simp only [Except.ok.injEq, Prod.mk.injEq] at h
    exact ⟨by simpa using hc, h.1.symm, h.2.symm⟩

theorem tagsEncInsert_ok {db : DBState} {i : Int} {n v : List Nat}
    {db' : DBState} (h : tagsEncInsert db i n v = .ok db') :
    db.tagsEnc.any (fun r => r.name == n && r.item_id == i) = false ∧
    db' = { db with tagsEnc := db.tagsEnc ++ [⟨n, v, i⟩] } := by
  unfold tagsEncInsert at h
  split at h
  · cases h
  · next hc =>
    split at h
    · cases h
    · simp only [Except.ok.injEq] at h
      exact ⟨by simpa using hc, h.symm⟩

theorem tagsPlainInsert_ok {db : DBState} {i : Int} {n : List Nat}
    {v : String} {db' : DBState} (h : tagsPlainInsert db i n v = .ok db') :
    db.tagsPlain.any (fun r => r.name == n && r.item_id == i) = false ∧
    db' = { db with tagsPlain := db.tagsPlain ++ [⟨n, v, i⟩] } := by
  unfold tagsPlainInsert at h
  split at h
  · cases h
  · next hc =>
    split at h
    · cases h
    · simp only [Except.ok.injEq] at h
      exact ⟨by simpa using hc, h.symm⟩

theorem addInsertTags_ok {i : Int} :
    ∀ {ts : List Tag} {db db' : DBState},
    addInsertTags db i ts = .ok db' →
    db'.items = db.items ∧ db'.nextId = db.nextId ∧
    db'.tagsEnc = db.tagsEnc ++ encRowsOf i ts ∧
    db'.tagsPlain = db.tagsPlain ++ plainRowsOf i ts
  | [], db, db', h => by
    simp only [addInsertTags, Except.ok.injEq] at h
    subst h
    simp [encRowsOf, plainRowsOf]
  | Tag.encrypted n v :: rest, db, db', h => by
    simp only [addInsertTags] at h
    split at h
    · next db1 hins =>
      obtain ⟨-, hdb1⟩ := tagsEncInsert_ok hins
      subst hdb1
      obtain ⟨h1, h2, h3, h4⟩ := addInsertTags_ok h
      refine ⟨h1, h2, ?_, ?_⟩
      · simp only [h3, encRowsOf, List.filterMap_cons]
        simp [encRowsOf]
      · simpa [plainRowsOf] using h4
    · cases h
  | Tag.plainText n v :: rest, db, db', h => by
    simp only [addInsertTags] at h
    split at h
    · next db1 hins =>
      obtain ⟨-, hdb1⟩ := tagsPlainInsert_ok hins
      subst hdb1
      obtain ⟨h1, h2, h3, h4⟩ := addInsertTags_ok h
      refine ⟨h1, h2, ?_, ?_⟩
      · simpa [encRowsOf] using h3
      · simp only [h4, plainRowsOf, List.filterMap_cons]
        simp [plainRowsOf]
    · cases h

theorem add_ok {db : DBState} {t i : List Nat} {v : EncryptedValue}
    {ts : List Tag} {db' : DBState} (h : add db t i v ts = .ok db') :
    db.items.any (fun r => r.type_ == t && r.name == i) = false ∧
    db'.items = db.items ++ [⟨db.nextId, t, i, v.data, v.key⟩] ∧
    db'.nextId = db.nextId + 1 ∧
    db'.tagsEnc = db.tagsEnc ++ encRowsOf db.nextId ts ∧
    db'.tagsPlain = db.tagsPlain ++ plainRowsOf db.nextId ts := by
  unfold add at h
  split at h
  · cases h
  · next heq =>
    obtain ⟨hfresh, hdb1, hid⟩ := itemsInsert_ok heq
    subst hdb1 hid
    obtain ⟨h1, h2, h3, h4⟩ := addInsertTags_ok h
    exact ⟨hfresh, by simpa using h1, by simpa using h2,
           by simpa using h3, by simpa using h4⟩

/-- A claim's theorem below never relies on a failing `add` mutating the
wallet: an `.error` result of the embedding carries no successor state,
which is the rollback of the source's dropped transaction. -/
theorem add_error_no_state {db : DBState} {t i : List Nat}
    {v : EncryptedValue} {ts : List Tag} {e : WalletStorageError}
    (h : add db t i v ts = .error e) : ∀ db', add db t i v ts ≠ .ok db' := by
  intro db' hok
  rw [h] at hok
  cases hok

/-- The only error the tag loop of `add` produces is `ItemAlreadyExists`. -/
theorem addInsertTags_error {i : Int} :
    ∀ {ts : List Tag} {db : DBState} {e : WalletStorageError},
    addInsertTags db i ts = .error e → e = .itemAlreadyExists
  | [], _, _, h => by simp [addInsertTags] at h
  | Tag.encrypted n v :: rest, db, e, h => by
    simp only [addInsertTags] at h
    split at h
    · exact addInsertTags_error h
    · simpa using h.symm
  | Tag.plainText n v :: rest, db, e, h => by
    simp only [addInsertTags] at h
    split at h
    · exact addInsertTags_error h
    · simpa using h.symm

/-- If some tag in `ts` is an encrypted tag whose name already has a
`tags_encrypted` row for this item, the `add` tag loop cannot succeed. -/
theorem addInsertTags_blocked_enc {i : Int} {n : List Nat} :
    ∀ {ts : List Tag} {db : DBState},
    (∃ v, Tag.encrypted n v ∈ ts) →
    db.tagsEnc.any (fun r => r.name == n && r.item_id == i) = true →
    ∀ db', addInsertTags db i ts ≠ .ok db'
  | [], _, hmem, _, _ => by
    obtain ⟨v, hv⟩ := hmem
    cases hv
  | Tag.encrypted m w :: rest, db, hmem, hblk, db' => by
    intro h
    simp only [addInsertTags] at h
    split at h
    · next db1 hins =>
      obtain ⟨hfree, hdb1⟩ := tagsEncInsert_ok hins
      obtain ⟨v, hv⟩ := hmem
      rcases List.mem_cons.mp hv with hv | hv
      · have hmn : m = n := by injection hv with hmn _; exact hmn.symm
        subst hmn
        rw [hfree] at hblk
        cases hblk
      · refine addInsertTags_blocked_enc ⟨v, hv⟩ ?_ db' h
        subst hdb1
        simp only [List.any_append, hblk, Bool.true_or]
    · cases h
  | Tag.plainText m w :: rest, db, hmem, hblk, db' => by
    intro h
    simp only [addInsertTags] at h
    split at h
    · next db1 hins =>
      obtain ⟨-, hdb1⟩ := tagsPlainInsert_ok hins
      obtain ⟨v, hv⟩ := hmem
      rcases List.mem_cons.mp hv with hv | hv
      · cases hv
      · refine addInsertTags_blocked_enc ⟨v, hv⟩ ?_ db' h
        subst hdb1
        simpa using hblk
    · cases h

/-- If some tag in `ts` is a plain tag whose name already has a
`tags_plaintext` row for this item, the `add` tag loop cannot succeed. -/
theorem addInsertTags_blocked_plain {i : Int} {n : List Nat} :
    ∀ {ts : List Tag} {db : DBState},
    (∃ v, Tag.plainText n v ∈ ts) →
    db.tagsPlain.any (fun r => r.name == n && r.item_id == i) = true →
    ∀ db', addInsertTags db i ts ≠ .ok db'
  | [], _, hmem, _, _ => by
    obtain ⟨v, hv⟩ := hmem
    cases hv
  | Tag.encrypted m w :: rest, db, hmem, hblk, db' => by
    intro h
    simp only [addInsertTags] at h
    split at h
    · next db1 hins =>
      obtain ⟨-, hdb1⟩ := tagsEncInsert_ok hins
      obtain ⟨v, hv⟩ := hmem
      rcases List.mem_cons.mp hv with hv | hv
      · cases hv
      · refine addInsertTags_blocked_plain ⟨v, hv⟩ ?_ db' h
        subst hdb1
        simpa using hblk
    · cases h
  | Tag.plainText m w :: rest, db, hmem, hblk, db' => by
    intro h
    simp only [addInsertTags] at h
    split at h
    · next db1 hins =>
      obtain ⟨hfree, hdb1⟩ := tagsPlainInsert_ok hins
      obtain ⟨v, hv⟩ := hmem
      rcases List.mem_cons.mp hv with hv | hv
      · have hmn : m = n := by injection hv with hmn _; exact hmn.symm
        subst hmn
        rw [hfree] at hblk
        cases hblk
      · refine addInsertTags_blocked_plain ⟨v, hv⟩ ?_ db' h
        subst hdb1
        simp only [List.any_append, hblk, Bool.true_or]
    · cases h

/-- A tag list with two same-variant same-name entries makes the `add`
tag loop fail, whatever the database looks like. -/
theorem addInsertTags_dup {i : Int} :
    ∀ {ts : List Tag} {db : DBState}, hasDupTagName ts = true →
    ∀ db', addInsertTags db i ts ≠ .ok db'
  | [], _, hdup, _ => by simp [hasDupTagName] at hdup
  | t :: rest, db, hdup, db' => by
    intro h
    simp only [hasDupTagName, Bool.or_eq_true] at hdup
    cases t with
    | encrypted m w =>
      simp only [addInsertTags] at h
      split at h
      · next db1 hins =>
        obtain ⟨-, hdb1⟩ := tagsEncInsert_ok hins
        rcases hdup with hdup | hdup
        · obtain ⟨u, hu, hsame⟩ := List.any_eq_true.mp hdup
          cases u with
          | encrypted m2 w2 =>
            have hm : m = m2 := by simpa [sameVariantName] using hsame
            subst hm
            refine addInsertTags_blocked_enc ⟨w2, hu⟩ ?_ db' h
            subst hdb1
            simp
          | plainText m2 w2 => simp [sameVariantName] at hsame
        · exact addInsertTags_dup hdup db' h
      · cases h
    | plainText m w =>
      simp only [addInsertTags] at h
      split at h
      · next db1 hins =>
        obtain ⟨-, hdb1⟩ := tagsPlainInsert_ok hins
        rcases hdup with hdup | hdup
        · obtain ⟨u, hu, hsame⟩ := List.any_eq_true.mp hdup
          cases u with
          | encrypted m2 w2 => simp [sameVariantName] at hsame
          | plainText m2 w2 =>
            have hm : m = m2 := by simpa [sameVariantName] using hsame
            subst hm
            refine addInsertTags_blocked_plain ⟨w2, hu⟩ ?_ db' h
            subst hdb1
            simp
        · exact addInsertTags_dup hdup db' h
      · cases h

/-- C1: for every wallet and every pair `(type, id)`, at most one record
with that key exists (a successful `add` preserves key uniqueness), and
calling `add` on the relational backend a second time with the same
`(type, id)` fails with `ItemAlreadyExists`, for any values and tags
supplied on either call. -/
theorem claim_C1 (db : DBState) (t i : List Nat) (v1 : EncryptedValue)
    (ts1 : List Tag) (v2 : EncryptedValue) (ts2 : List Tag) (db' : DBState)
    (h : add db t i v1 ts1 = .ok db') :
    add db' t i v2 ts2 = .error .itemAlreadyExists ∧
    (uniqueKeys db → uniqueKeys db') := by
  obtain ⟨hfresh, hitems, -, -, -⟩ := add_ok h
  constructor
  · have hany : db'.items.any (fun r => r.type_ == t && r.name == i) = true := by
      rw [hitems]; simp
    have hins : itemsInsert db' t i v2.data v2.key = .error .uniqueViolation := by
      simp [itemsInsert, hany]
    simp [add, hins]
  · intro hu
    unfold uniqueKeys at hu ⊢
    rw [hitems, List.pairwise_append]
    refine ⟨hu, by simp, ?_⟩
    intro a ha b hb
    have hb' : b = (⟨db.nextId, t, i, v1.data, v1.key⟩ : DBRow) := by
      simpa using hb
    subst hb'
    have hfa : ¬((a.type_ == t && a.name == i) = true) := by
      intro hcontra
      have hany : db.items.any (fun r => r.type_ == t && r.name == i) = true := by
        rw [List.any_eq_true]
        exact ⟨a, ha, hcontra⟩
      rw [hfresh] at hany
      cases hany
    simp only [Bool.and_eq_true, beq_iff_eq] at hfa
    simpa using hfa

/-- C1 witness: a concrete second `add` with the same key fails with
`ItemAlreadyExists` and key uniqueness is preserved. -/
theorem claim_C1_witness :
    add ⟨[⟨1, [1], [2], [3], [4]⟩], [], [], 2⟩ [1] [2] ⟨[5], [6]⟩ [] =
      .error .itemAlreadyExists ∧
    (uniqueKeys ⟨[], [], [], 1⟩ → uniqueKeys ⟨[⟨1, [1], [2], [3], [4]⟩], [], [], 2⟩) :=
  claim_C1 ⟨[], [], [], 1⟩ [1] [2] ⟨[3], [4]⟩ [] ⟨[5], [6]⟩ []
    ⟨[⟨1, [1], [2], [3], [4]⟩], [], [], 2⟩ rfl

/-- C2: the relational backend's `add` is atomic — a successful `add`
stores the items row and all its tag rows, while a tag-uniqueness
violation (two same-variant same-name tags) makes the whole `add` fail
with `ItemAlreadyExists`; the `.error` result of the transactional
embedding carries no successor state, i.e. nothing of the call remains
stored. -/
theorem claim_C2 (db : DBState) (t i : List Nat) (v : EncryptedValue)
    (ts : List Tag) :
    ((db.items.any (fun r => r.type_ == t && r.name == i) = false) →
      hasDupTagName ts = true →
      add db t i v ts = .error .itemAlreadyExists) ∧
    (∀ db', add db t i v ts = .ok db' →
      db'.items = db.items ++ [⟨db.nextId, t, i, v.data, v.key⟩] ∧
      db'.tagsEnc = db.tagsEnc ++ encRowsOf db.nextId ts ∧
      db'.tagsPlain = db.tagsPlain ++ plainRowsOf db.nextId ts) := by
  constructor
  · intro hfresh hdup
    have hins : itemsInsert db t i v.data v.key =
        .ok ({ db with items := db.items ++ [⟨db.nextId, t, i, v.data, v.key⟩],
                       nextId := db.nextId + 1 }, db.nextId) := by
      simp [itemsInsert, hfresh]
    have hadd : add db t i v ts = addInsertTags { db with
        items := db.items ++ [⟨db.nextId, t, i, v.data, v.key⟩],
        nextId := db.nextId + 1 } db.nextId ts := by
      unfold add
      rw [hins]
    rw [hadd]
    rcases hres : addInsertTags { db with
        items := db.items ++ [⟨db.nextId, t, i, v.data, v.key⟩],
        nextId := db.nextId + 1 } db.nextId ts with e | db2
    · rw [addInsertTags_error hres]
    · exact absurd hres (addInsertTags_dup hdup db2)
  · intro db' h
    obtain ⟨-, h1, -, h3, h4⟩ := add_ok h
    exact ⟨h1, h3, h4⟩

theorem filter_key_le_one {l : List DBRow}
    (hu : l.Pairwise (fun a b => ¬(a.type_ = b.type_ ∧ a.name = b.name)))
    (t i : List Nat) :
    (l.filter (fun r => r.type_ == t && r.name == i)).length ≤ 1 := by
  induction l with
  | nil => simp
  | cons a rest ih =>
    rw [List.pairwise_cons] at hu
    obtain ⟨ha, hrest⟩ := hu
    by_cases hk : (a.type_ == t && a.name == i) = true
    · rw [List.filter_cons, if_pos hk]
      have hnil : rest.filter (fun r => r.type_ == t && r.name == i) = [] := by
        rw [List.filter_eq_nil_iff]
        intro b hb hbk
        simp only [Bool.and_eq_true, beq_iff_eq] at hk hbk
        exact ha b hb ⟨hk.1.trans hbk.1.symm, hk.2.trans hbk.2.symm⟩
      simp [hnil]
    · rw [List.filter_cons, if_neg hk]
      exact ih hrest

/-- C5: on the relational backend, for a `(type, id)` present in a wallet
with unique keys, `update` succeeds and a subsequent `get` with
`retrieveValue = true` returns the new encrypted value; for an absent
`(type, id)`, `update` fails with `ItemNotFound`. -/
theorem claim_C5 (db : DBState) (t i : List Nat) (v2 : EncryptedValue)
    (hu : uniqueKeys db) :
    (∀ row, db.items.find? (fun r => r.type_ == t && r.name == i) = some row →
      ∃ db2, update db t i v2 = .ok db2 ∧
        ∀ opts : RecordOptions, opts.retrieve_value = true →
          ∃ rec, get db2 t i opts = .ok rec ∧ rec.value = some v2) ∧
    (db.items.find? (fun r => r.type_ == t && r.name == i) = none →
      update db t i v2 = .error .itemNotFound) := by
  constructor
  · intro row hfind
    have hmem : row ∈ db.items := List.mem_of_find?_eq_some hfind
    have hkey : (row.type_ == t && row.name == i) = true := by
      have := List.find?_some hfind
      simpa using this
    have hcnt : (db.items.filter (fun r => r.type_ == t && r.name == i)).length = 1 := by
      have hle := filter_key_le_one hu t i
      have hpos : 0 < (db.items.filter (fun r => r.type_ == t && r.name == i)).length :=
        List.length_pos.mpr (List.ne_nil_of_mem (List.mem_filter.mpr ⟨hmem, hkey⟩))
      omega
    refine ⟨{ db with items := db.items.map (fun r : DBRow =>
        if r.type_ == t && r.name == i then
          { r with value := v2.data, key := v2.key } else r) }, ?_, ?_⟩
    · simp only [update]
      rw [if_pos hcnt]
    intro opts hopts
    have hpf : (fun r : DBRow => r.type_ == t && r.name == i) ∘
        (fun r : DBRow => if r.type_ == t && r.name == i then
          { r with value := v2.data, key := v2.key } else r) =
        (fun r : DBRow => r.type_ == t && r.name == i) := by
      funext r
      by_cases hr : (r.type_ == t && r.name == i) = true
      · simp only [Function.comp]
        rw [if_pos hr]
      · simp only [Function.comp]
        rw [if_neg hr]
    have hfind2 : (db.items.map (fun r : DBRow =>
        if r.type_ == t && r.name == i then
          { r with value := v2.data, key := v2.key } else r)).find?
        (fun r => r.type_ == t && r.name == i) =
        some { row with value := v2.data, key := v2.key } := by
      have hmap : Option.map (fun r : DBRow =>
          if r.type_ == t && r.name == i then
            { r with value := v2.data, key := v2.key } else r) (some row) =
          some (if row.type_ == t && row.name == i then
            { row with value := v2.data, key := v2.key } else row) := rfl
      rw [List.find?_map, hpf, hfind, hmap, if_pos hkey]
    refine ⟨{ id := i,
              value := if opts.retrieve_value then some ⟨v2.data, v2.key⟩ else none,
              type_ := if opts.retrieve_type then some t else none,
              tags := if opts.retrieve_tags then
                some (getTagsDirect { db with items := db.items.map (fun r : DBRow =>
                  if r.type_ == t && r.name == i then
                    { r with value := v2.data, key := v2.key } else r) } row.id)
                else none }, ?_, ?_⟩
    · simp only [get, hfind2]
    · simp [hopts]
  · intro hfind
    have hnil : db.items.filter (fun r => r.type_ == t && r.name == i) = [] := by
      rw [List.filter_eq_nil_iff]
      intro b hb hbk
      have := List.find?_eq_none.mp hfind b hb
      exact this hbk
    simp [update, hnil]

/-- C5 witness: a concrete `update` on a present key succeeds, the updated
value is returned by `get`, and on an absent key `update` fails with
`ItemNotFound`. -/
theorem claim_C5_witness :
    (∃ db2, update ⟨[⟨1, [1], [2], [3], [4]⟩], [], [], 2⟩ [1] [2] ⟨[9], [8]⟩ = .ok db2 ∧
      ∀ opts : RecordOptions, opts.retrieve_value = true →
        ∃ rec, get db2 [1] [2] opts = .ok rec ∧ rec.value = some ⟨[9], [8]⟩) ∧
    update ⟨[⟨1, [1], [2], [3], [4]⟩], [], [], 2⟩ [7] [7] ⟨[9], [8]⟩ =
      .error .itemNotFound :=
  ⟨(claim_C5 ⟨[⟨1, [1], [2], [3], [4]⟩], [], [], 2⟩ [1] [2] ⟨[9], [8]⟩
      (by simp [uniqueKeys])).1 ⟨1, [1], [2], [3], [4]⟩ rfl,
   (claim_C5 ⟨[⟨1, [1], [2], [3], [4]⟩], [], [], 2⟩ [7] [7] ⟨[9], [8]⟩
      (by simp [uniqueKeys])).2 rfl⟩

/-- Whether a tag is the encrypted variant. -/
def Tag.isEnc : Tag → Bool
  | .encrypted _ _ => true
  | .plainText _ _ => false

/-- Whether a tag is the plaintext variant. -/
def Tag.isPlain : Tag → Bool
  | .encrypted _ _ => false
  | .plainText _ _ => true

theorem mem_variant_split (tg : Tag) (ts : List Tag) :
    tg ∈ ts.filter Tag.isEnc ++ ts.filter Tag.isPlain ↔ tg ∈ ts := by
  rw [List.mem_append]
  constructor
  · rintro (h | h) <;> exact (List.mem_filter.mp h).1
  · intro h
    cases tg with
    | encrypted n v => exact Or.inl (List.mem_filter.mpr ⟨h, rfl⟩)
    | plainText n v => exact Or.inr (List.mem_filter.mpr ⟨h, rfl⟩)

theorem encRowsOf_map_back (i : Int) : ∀ ts : List Tag,
    (encRowsOf i ts).map (fun r => Tag.encrypted r.name r.value) =
      ts.filter Tag.isEnc
  | [] => rfl
  | Tag.encrypted n v :: rest => by
    simp only [encRowsOf, List.filterMap_cons, List.map_cons, List.filter_cons]
    simp only [Tag.isEnc, if_pos]
    rw [← encRowsOf_map_back i rest]
    simp [encRowsOf]
  | Tag.plainText n v :: rest => by
    simp only [encRowsOf, List.filterMap_cons, List.filter_cons]
    simp only [Tag.isEnc, Bool.false_eq_true, if_neg]
    rw [← encRowsOf_map_back i rest]
    simp [encRowsOf]

theorem plainRowsOf_map_back (i : Int) : ∀ ts : List Tag,
    (plainRowsOf i ts).map (fun r => Tag.plainText r.name r.value) =
      ts.filter Tag.isPlain
  | [] => rfl
  | Tag.encrypted n v :: rest => by
    simp only [plainRowsOf, List.filterMap_cons, List.filter_cons]
    simp only [Tag.isPlain, Bool.false_eq_true, if_neg]
    rw [← plainRowsOf_map_back i rest]
    simp [plainRowsOf]
  | Tag.plainText n v :: rest => by
    simp only [plainRowsOf, List.filterMap_cons, List.map_cons, List.filter_cons]
    simp only [Tag.isPlain, if_pos]
    rw [← plainRowsOf_map_back i rest]
    simp [plainRowsOf]

theorem encRowsOf_filter_item (i : Int) (ts : List Tag) :
    (encRowsOf i ts).filter (fun r => r.item_id == i) = encRowsOf i ts := by
  rw [List.filter_eq_self]
  intro r hr
  obtain ⟨u, -, hu⟩ := List.mem_filterMap.mp hr
  cases u with
  | encrypted n v =>
    simp only [encRowsOf, Option.some.injEq] at hu
    subst hu
    simp
  | plainText n v => simp [encRowsOf] at hu

theorem plainRowsOf_filter_item (i : Int) (ts : List Tag) :
    (plainRowsOf i ts).filter (fun r => r.item_id == i) = plainRowsOf i ts := by
  rw [List.filter_eq_self]
  intro r hr
  obtain ⟨u, -, hu⟩ := List.mem_filterMap.mp hr
  cases u with
  | encrypted n v => simp [plainRowsOf] at hu
  | plainText n v =>
    simp only [plainRowsOf, Option.some.injEq] at hu
    subst hu
    simp

theorem updateTagsLoop_ok {i : Int} :
    ∀ {ts : List Tag} {db db' : DBState},
    updateTagsLoop db i ts = .ok db' →
    db'.items = db.items ∧
    db'.tagsEnc = db.tagsEnc ++ encRowsOf i ts ∧
    db'.tagsPlain = db.tagsPlain ++ plainRowsOf i ts
  | [], db, db', h => by
    simp only [updateTagsLoop, Except.ok.injEq] at h
    subst h
    simp [encRowsOf, plainRowsOf]
  | Tag.encrypted n v :: rest, db, db', h => by
    simp only [updateTagsLoop] at h
    split at h
    · next db1 hins =>
      obtain ⟨-, hdb1⟩ := tagsEncInsert_ok hins
      subst hdb1
      obtain ⟨h1, h3, h4⟩ := updateTagsLoop_ok h
      refine ⟨h1, ?_, ?_⟩
      · simp only [h3, encRowsOf, List.filterMap_cons]
        simp [encRowsOf]
      · simpa [plainRowsOf] using h4
    · cases h
  | Tag.plainText n v :: rest, db, db', h => by
    simp only [updateTagsLoop] at h
    split at h
    · next db1 hins =>
      obtain ⟨-, hdb1⟩ := tagsPlainInsert_ok hins
      subst hdb1
      obtain ⟨h1, h3, h4⟩ := updateTagsLoop_ok h
      refine ⟨h1, ?_, ?_⟩
      · simpa [encRowsOf] using h3
      · simp only [h4, plainRowsOf, List.filterMap_cons]
        simp [plainRowsOf]
    · cases h

/-- C3: on the relational backend, after a successful
`update_tags(type, id, T)` a `get` with `retrieveTags = true` returns
exactly the tags `T` — every previous tag of the record, in both tag
tables, is gone — and `update_tags` on an absent `(type, id)` fails with
`ItemNotFound`. -/
theorem claim_C3 (db : DBState) (t i : List Nat) (T : List Tag) :
    (∀ db', update_tags db t i T = .ok db' →
      ∀ opts : RecordOptions, opts.retrieve_tags = true →
        ∃ rec tagsRet, get db' t i opts = .ok rec ∧ rec.tags = some tagsRet ∧
          (∀ tg, tg ∈ tagsRet ↔ tg ∈ T)) ∧
    (db.items.find? (fun r => r.type_ == t && r.name == i) = none →
      update_tags db t i T = .error .itemNotFound) := by
  constructor
  · intro db' h opts hopts
    unfold update_tags at h
    split at h
    · cases h
    · next row hfind =>
      obtain ⟨h1, h3, h4⟩ := updateTagsLoop_ok h
      simp only at h1 h3 h4
      have hfind' : db'.items.find? (fun r => r.type_ == t && r.name == i) =
          some row := by rw [h1, hfind]
      have henc : db'.tagsEnc.filter (fun r => r.item_id == row.id) =
          encRowsOf row.id T := by
        rw [h3, List.filter_append, encRowsOf_filter_item]
        have hnil : (db.tagsEnc.filter (fun r => !(r.item_id == row.id))).filter
            (fun r => r.item_id == row.id) = [] := by
          rw [List.filter_eq_nil_iff]
          intro b hb
          have := (List.mem_filter.mp hb).2
          simp only [Bool.not_eq_eq_eq_not, Bool.not_true] at this
          simp [this]
        rw [hnil, List.nil_append]
      have hplain : db'.tagsPlain.filter (fun r => r.item_id == row.id) =
          plainRowsOf row.id T := by
        rw [h4, List.filter_append, plainRowsOf_filter_item]
        have hnil : (db.tagsPlain.filter (fun r => !(r.item_id == row.id))).filter
            (fun r => r.item_id == row.id) = [] := by
          rw [List.filter_eq_nil_iff]
          intro b hb
          have := (List.mem_filter.mp hb).2
          simp only [Bool.not_eq_eq_eq_not, Bool.not_true] at this
          simp [this]
        rw [hnil, List.nil_append]
      have htags : getTagsDirect db' row.id = T.filter Tag.isEnc ++ T.filter Tag.isPlain := by
        unfold getTagsDirect
        rw [henc, hplain, encRowsOf_map_back, plainRowsOf_map_back]
      refine ⟨{ id := i,
                value := if opts.retrieve_value then some ⟨row.value, row.key⟩ else none,
                type_ := if opts.retrieve_type then some t else none,
                tags := if opts.retrieve_tags then some (getTagsDirect db' row.id) else none },
              getTagsDirect db' row.id, ?_, ?_, ?_⟩
      · simp only [get, hfind']
      · simp [hopts]
      · intro tg
        rw [htags]
        exact mem_variant_split tg T
  · intro hfind
    simp only [update_tags, hfind]

/-- C3 witness: a concrete `update_tags` replaces the record's tags and a
concrete `update_tags` on an absent key fails with `ItemNotFound`. -/
theorem claim_C3_witness :
    (∀ opts : RecordOptions, opts.retrieve_tags = true →
      ∃ rec tagsRet,
        get ⟨[⟨1, [1], [2], [3], [4]⟩], [], [⟨[9], "x", 1⟩], 2⟩ [1] [2] opts = .ok rec ∧
        rec.tags = some tagsRet ∧
        (∀ tg, tg ∈ tagsRet ↔ tg ∈ [Tag.plainText [9] "x"])) ∧
    update_tags ⟨[], [], [], 1⟩ [1] [2] [] = .error .itemNotFound :=
  ⟨(claim_C3 ⟨[⟨1, [1], [2], [3], [4]⟩], [⟨[5], [6], 1⟩], [], 2⟩ [1] [2]
      [Tag.plainText [9] "x"]).1
      ⟨[⟨1, [1], [2], [3], [4]⟩], [], [⟨[9], "x", 1⟩], 2⟩ rfl,
   (claim_C3 ⟨[], [], [], 1⟩ [1] [2] []).2 rfl⟩

theorem mem_getTagsDirect_enc {db : DBState} {i : Int} {n v : List Nat} :
    Tag.encrypted n v ∈ getTagsDirect db i ↔ (⟨n, v, i⟩ : TagRowE) ∈ db.tagsEnc := by
  unfold getTagsDirect
  rw [List.mem_append]
  constructor
  · rintro (h | h)
    · obtain ⟨r, hr, hrt⟩ := List.mem_map.mp h
      obtain ⟨hrm, hri⟩ := List.mem_filter.mp hr
      have hr' : r = ⟨n, v, i⟩ := by
        injection hrt with h1 h2
        cases r
        simp only [beq_iff_eq] at hri
        simp_all
      rwa [hr'] at hrm
    · obtain ⟨r, -, hrt⟩ := List.mem_map.mp h
      simp at hrt
  · intro h
    exact Or.inl (List.mem_map.mpr ⟨⟨n, v, i⟩, List.mem_filter.mpr ⟨h, by simp⟩, rfl⟩)

theorem mem_getTagsDirect_plain {db : DBState} {i : Int} {n : List Nat}
    {v : String} :
    Tag.plainText n v ∈ getTagsDirect db i ↔ (⟨n, v, i⟩ : TagRowP) ∈ db.tagsPlain := by
  unfold getTagsDirect
  rw [List.mem_append]
  constructor
  · rintro (h | h)
    · obtain ⟨r, -, hrt⟩ := List.mem_map.mp h
      simp at hrt
    · obtain ⟨r, hr, hrt⟩ := List.mem_map.mp h
      obtain ⟨hrm, hri⟩ := List.mem_filter.mp hr
      have hr' : r = ⟨n, v, i⟩ := by
        injection hrt with h1 h2
        cases r
        simp only [beq_iff_eq] at hri
        simp_all
      rwa [hr'] at hrm
  · intro h
    exact Or.inr (List.mem_map.mpr ⟨⟨n, v, i⟩, List.mem_filter.mpr ⟨h, by simp⟩, rfl⟩)

theorem get_tags_of_find {db : DBState} {t i : List Nat} {row : DBRow}
    (hfind : db.items.find? (fun r => r.type_ == t && r.name == i) = some row)
    (opts : RecordOptions) (hopts : opts.retrieve_tags = true) :
    ∃ rec, get db t i opts = .ok rec ∧ rec.tags = some (getTagsDirect db row.id) := by
  unfold get
  rw [hfind]
  refine ⟨_, rfl, ?_⟩
  simp [hopts]

/-- C4: on the relational backend, for a record present as `(type, id)`,
`add_tags` of a single tag `tg` succeeds; afterwards a `get` with
`retrieveTags = true` contains `tg`, a same-variant same-name tag of the
record has been overwritten (the only same-name tag left is `tg`), and
every tag with a different name or variant is preserved unchanged. -/
theorem claim_C4 (db : DBState) (t i : List Nat) (tg : Tag) (row : DBRow)
    (hfind : db.items.find? (fun r => r.type_ == t && r.name == i) = some row) :
    ∃ db', add_tags db t i [tg] = .ok db' ∧
      tg ∈ getTagsDirect db' row.id ∧
      (∀ tg', tg' ∈ getTagsDirect db row.id → sameVariantName tg' tg = false →
        tg' ∈ getTagsDirect db' row.id) ∧
      (∀ tg', tg' ∈ getTagsDirect db' row.id → sameVariantName tg' tg = true →
        tg' = tg) ∧
      (∀ opts : RecordOptions, opts.retrieve_tags = true →
        ∃ rec, get db' t i opts = .ok rec ∧
          rec.tags = some (getTagsDirect db' row.id)) := by
  have hmem : row ∈ db.items := List.mem_of_find?_eq_some hfind
  have hitem : db.items.any (fun r => r.id == row.id) = true := by
    rw [List.any_eq_true]
    exact ⟨row, hmem, by simp⟩
  cases tg with
  | encrypted n v =>
    by_cases hhit : db.tagsEnc.any (fun r => r.name == n && r.item_id == row.id) = true
    · -- ON CONFLICT fires: the existing row's value is replaced in place.
      refine ⟨⟨db.items, db.tagsEnc.map (fun r => if r.name == n && r.item_id == row.id then { r with value := v } else r), db.tagsPlain, db.nextId⟩, ?_, ?_, ?_, ?_, ?_⟩
      · have hup : tagsEncUpsert db row.id n v = .ok ⟨db.items, db.tagsEnc.map (fun r => if r.name == n && r.item_id == row.id then { r with value := v } else r), db.tagsPlain, db.nextId⟩ := by
          unfold tagsEncUpsert
          rw [if_pos hhit]
        simp only [add_tags, hfind, addTagsLoop, hup]
      · rw [mem_getTagsDirect_enc]
        obtain ⟨r0, hr0, hr0k⟩ := List.any_eq_true.mp hhit
        refine List.mem_map.mpr ⟨r0, hr0, ?_⟩
        rw [if_pos hr0k]
        simp only [Bool.and_eq_true, beq_iff_eq] at hr0k
        cases r0
        simp_all
      · intro tg' htg' hdiff
        cases tg' with
        | encrypted n' v' =>
          rw [mem_getTagsDirect_enc] at htg' ⊢
          refine List.mem_map.mpr ⟨⟨n', v', row.id⟩, htg', ?_⟩
          have hne : (n' == n) = false := by simpa [sameVariantName] using hdiff
          simp [hne]
        | plainText n' v' =>
          rw [mem_getTagsDirect_plain] at htg' ⊢
          exact htg'
      · intro tg' htg' hsame
        cases tg' with
        | encrypted n' v' =>
          have hn : n' = n := by simpa [sameVariantName] using hsame
          rw [mem_getTagsDirect_enc] at htg'
          obtain ⟨r0, hr0, hr0e⟩ := List.mem_map.mp htg'
          by_cases hc : (r0.name == n && r0.item_id == row.id) = true
          · rw [if_pos hc] at hr0e
            cases r0
            simp_all
          · rw [if_neg hc] at hr0e
            subst hr0e
            simp [hn] at hc
        | plainText n' v' => simp [sameVariantName] at hsame
      · intro opts hopts
        refine @get_tags_of_find _ t i row ?_ opts hopts
        exact hfind
    · -- no conflict: the row is appended.
      have hhitf : db.tagsEnc.any (fun r => r.name == n && r.item_id == row.id) = false :=
        Bool.not_eq_true _ ▸ eq_false_of_ne_true hhit
      refine ⟨⟨db.items, db.tagsEnc ++ [⟨n, v, row.id⟩], db.tagsPlain, db.nextId⟩, ?_, ?_, ?_, ?_, ?_⟩
      · have hup : tagsEncUpsert db row.id n v = .ok ⟨db.items, db.tagsEnc ++ [⟨n, v, row.id⟩], db.tagsPlain, db.nextId⟩ := by
          unfold tagsEncUpsert
          rw [if_neg hhit, if_neg (by simp [hitem])]
        simp only [add_tags, hfind, addTagsLoop, hup]
      · rw [mem_getTagsDirect_enc]
        simp
      · intro tg' htg' hdiff
        cases tg' with
        | encrypted n' v' =>
          rw [mem_getTagsDirect_enc] at htg' ⊢
          simp [htg']
        | plainText n' v' =>
          rw [mem_getTagsDirect_plain] at htg' ⊢
          exact htg'
      · intro tg' htg' hsame
        cases tg' with
        | encrypted n' v' =>
          have hn : n' = n := by simpa [sameVariantName] using hsame
          rw [mem_getTagsDirect_enc] at htg'
          rcases List.mem_append.mp htg' with hl | hr
          · exfalso
            have hx : db.tagsEnc.any (fun r => r.name == n && r.item_id == row.id) = true := by
              rw [List.any_eq_true]
              exact ⟨_, hl, by simp [hn]⟩
            rw [hhitf] at hx
            cases hx
          · have hrr : (⟨n', v', row.id⟩ : TagRowE) = ⟨n, v, row.id⟩ := by simpa using hr
            injection hrr with h1 h2
            rw [hn, h2]
        | plainText n' v' => simp [sameVariantName] at hsame
      · intro opts hopts
        refine @get_tags_of_find _ t i row ?_ opts hopts
        exact hfind
  | plainText n v =>
    by_cases hhit : db.tagsPlain.any (fun r => r.name == n && r.item_id == row.id) = true
    · refine ⟨⟨db.items, db.tagsEnc, db.tagsPlain.map (fun r => if r.name == n && r.item_id == row.id then { r with value := v } else r), db.nextId⟩, ?_, ?_, ?_, ?_, ?_⟩
      · have hup : tagsPlainUpsert db row.id n v = .ok ⟨db.items, db.tagsEnc, db.tagsPlain.map (fun r => if r.name == n && r.item_id == row.id then { r with value := v } else r), db.nextId⟩ := by
          unfold tagsPlainUpsert
          rw [if_pos hhit]
        simp only [add_tags, hfind, addTagsLoop, hup]
      · rw [mem_getTagsDirect_plain]
        obtain ⟨r0, hr0, hr0k⟩ := List.any_eq_true.mp hhit
        refine List.mem_map.mpr ⟨r0, hr0, ?_⟩
        rw [if_pos hr0k]
        simp only [Bool.and_eq_true, beq_iff_eq] at hr0k
        cases r0
        simp_all
      · intro tg' htg' hdiff
        cases tg' with
        | encrypted n' v' =>
          rw [mem_getTagsDirect_enc] at htg' ⊢
          exact htg'
        | plainText n' v' =>
          rw [mem_getTagsDirect_plain] at htg' ⊢
          refine List.mem_map.mpr ⟨⟨n', v', row.id⟩, htg', ?_⟩
          have hne : (n' == n) = false := by simpa [sameVariantName] using hdiff
          simp [hne]
      · intro tg' htg' hsame
        cases tg' with
        | encrypted n' v' => simp [sameVariantName] at hsame
        | plainText n' v' =>
          have hn : n' = n := by simpa [sameVariantName] using hsame
          rw [mem_getTagsDirect_plain] at htg'
          obtain ⟨r0, hr0, hr0e⟩ := List.mem_map.mp htg'
          by_cases hc : (r0.name == n && r0.item_id == row.id) = true
          · rw [if_pos hc] at hr0e
            cases r0
            simp_all
          · rw [if_neg hc] at hr0e
            subst hr0e
            simp [hn] at hc
      · intro opts hopts
        refine @get_tags_of_find _ t i row ?_ opts hopts
        exact hfind
    · have hhitf : db.tagsPlain.any (fun r => r.name == n && r.item_id == row.id) = false :=
        Bool.not_eq_true _ ▸ eq_false_of_ne_true hhit
      refine ⟨⟨db.items, db.tagsEnc, db.tagsPlain ++ [⟨n, v, row.id⟩], db.nextId⟩, ?_, ?_, ?_, ?_, ?_⟩
      · have hup : tagsPlainUpsert db row.id n v = .ok ⟨db.items, db.tagsEnc, db.tagsPlain ++ [⟨n, v, row.id⟩], db.nextId⟩ := by
          unfold tagsPlainUpsert
          rw [if_neg hhit, if_neg (by simp [hitem])]
        simp only [add_tags, hfind, addTagsLoop, hup]
      · rw [mem_getTagsDirect_plain]
        simp
      · intro tg' htg' hdiff
        cases tg' with
        | encrypted n' v' =>
          rw [mem_getTagsDirect_enc] at htg' ⊢
          exact htg'
        | plainText n' v' =>
          rw [mem_getTagsDirect_plain] at htg' ⊢
          simp [htg']
      · intro tg' htg' hsame
        cases tg' with
        | encrypted n' v' => simp [sameVariantName] at hsame
        | plainText n' v' =>
          have hn : n' = n := by simpa [sameVariantName] using hsame
          rw [mem_getTagsDirect_plain] at htg'
          rcases List.mem_append.mp htg' with hl | hr
          · exfalso
            have hx : db.tagsPlain.any (fun r => r.name == n && r.item_id == row.id) = true := by
              rw [List.any_eq_true]
              exact ⟨_, hl, by simp [hn]⟩
            rw [hhitf] at hx
            cases hx
          · have hrr : (⟨n', v', row.id⟩ : TagRowP) = ⟨n, v, row.id⟩ := by simpa using hr
            injection hrr with h1 h2
            rw [hn, h2]
      · intro opts hopts
        refine @get_tags_of_find _ t i row ?_ opts hopts
        exact hfind

/-- C4 witness: a concrete `add_tags` of one tag on a present record
succeeds, the tag is retrieved, the differently-named tag is preserved and
the same-named tag has been overwritten. -/
theorem claim_C4_witness :
    ∃ db', add_tags ⟨[⟨1, [1], [2], [3], [4]⟩], [⟨[5], [6], 1⟩], [], 2⟩ [1] [2]
        [Tag.encrypted [5] [9]] = .ok db' ∧
      Tag.encrypted [5] [9] ∈ getTagsDirect db' 1 ∧
      (∀ tg', tg' ∈ getTagsDirect ⟨[⟨1, [1], [2], [3], [4]⟩], [⟨[5], [6], 1⟩], [], 2⟩ 1 →
        sameVariantName tg' (Tag.encrypted [5] [9]) = false →
        tg' ∈ getTagsDirect db' 1) ∧
      (∀ tg', tg' ∈ getTagsDirect db' 1 →
        sameVariantName tg' (Tag.encrypted [5] [9]) = true →
        tg' = Tag.encrypted [5] [9]) ∧
      (∀ opts : RecordOptions, opts.retrieve_tags = true →
        ∃ rec, get db' [1] [2] opts = .ok rec ∧
          rec.tags = some (getTagsDirect db' 1)) :=
  claim_C4 ⟨[⟨1, [1], [2], [3], [4]⟩], [⟨[5], [6], 1⟩], [], 2⟩ [1] [2]
    (Tag.encrypted [5] [9]) ⟨1, [1], [2], [3], [4]⟩ rfl

theorem iterNext_none {db : DBState} {it : PGIterator} (h : it.rows = none) :
    iterNext db it = (.ok none, it) := by
  unfold iterNext
  rw [h]

theorem iterNext_some {db : DBState} {it : PGIterator} {rs : List DBRow}
    (hrows : it.rows = some rs)
    (hwf : it.options.retrieve_tags = true → it.tagRetriever.isSome = true) :
    iterNext db it =
      if h : it.iter_count < rs.length then
        (.ok (some (rowToRecord db it.options (rs.get ⟨it.iter_count, h⟩))),
         { it with iter_count := it.iter_count + 1 })
      else
        (.ok none, it) := by
  obtain ⟨rows, tr, opts, tc, ic⟩ := it
  obtain rfl : rows = some rs := hrows
  simp only [iterNext]
  by_cases h : ic < rs.length
  · rw [dif_pos h, dif_pos h]
    have hcond : (opts.retrieve_tags && tr.isNone) = false := by
      by_cases ht : opts.retrieve_tags = true
      · have hs := hwf ht
        cases tr with
        | none => cases hs
        | some u => simp
      · simp [eq_false_of_ne_true ht]
    rw [if_neg (by simp [hcond])]
  · rw [dif_neg h, dif_neg h]

theorem runNexts_none (db : DBState) :
    ∀ (n : Nat) (it : PGIterator), it.rows = none →
    runNexts db it n = List.replicate n (.ok none)
  | 0, _, _ => rfl
  | n + 1, it, h => by
    simp only [runNexts]
    rw [iterNext_none h]
    rw [runNexts_none db n it h]
    rfl

theorem runNexts_some_char (db : DBState) :
    ∀ (n : Nat) (it : PGIterator) (rs : List DBRow),
    it.rows = some rs →
    (it.options.retrieve_tags = true → it.tagRetriever.isSome = true) →
    ∀ j, j < n →
    (runNexts db it n)[j]? =
      some (.ok ((rs[it.iter_count + j]?).map (rowToRecord db it.options)))
  | 0, _, _, _, _, j, hj => absurd hj (by omega)
  | n + 1, it, rs, hrows, hwf, j, hj => by
    simp only [runNexts]
    rw [iterNext_some hrows hwf]
    by_cases h : it.iter_count < rs.length
    · rw [dif_pos h]
      cases j with
      | zero =>
        simp only [List.getElem?_cons_zero]
        rw [Nat.add_zero, List.getElem?_eq_getElem h]
        rfl
      | succ j' =>
        simp only [List.getElem?_cons_succ]
        have harith : it.iter_count + (j' + 1) = (it.iter_count + 1) + j' := by omega
        rw [harith]
        exact runNexts_some_char db n { it with iter_count := it.iter_count + 1 }
          rs hrows hwf j' (by omega)
    · rw [dif_neg h]
      cases j with
      | zero =>
        simp only [List.getElem?_cons_zero]
        rw [Nat.add_zero, List.getElem?_eq_none (by omega)]
        rfl
      | succ j' =>
        simp only [List.getElem?_cons_succ]
        rw [runNexts_some_char db n it rs hrows hwf j' (by omega)]
        rw [List.getElem?_eq_none (by omega), List.getElem?_eq_none (by omega)]

/-- C6: for an iterator over result rows `rs` (with a tag retriever present
whenever tags were requested), the `j`-th of `n` `next()` calls returns
exactly row number `iter_count + j` — so each underlying result row is
reported at most once, and every call past the end of the result set
returns `Ok(None)` — and an iterator created without a row set (records
not requested) answers `Ok(None)` on every call. -/
theorem claim_C6 (db : DBState) (it : PGIterator) (n : Nat)
    (hwf : it.options.retrieve_tags = true → it.tagRetriever.isSome = true) :
    (it.rows = none → runNexts db it n = List.replicate n (.ok none)) ∧
    (∀ rs, it.rows = some rs → ∀ j, j < n →
      (runNexts db it n)[j]? =
        some (.ok ((rs[it.iter_count + j]?).map (rowToRecord db it.options)))) := by
  constructor
  · intro h
    exact runNexts_none db n it h
  · intro rs hrows j hj
    exact runNexts_some_char db n it rs hrows hwf j hj

/-- C6 witness: on a one-row result set, of three consecutive `next()`
calls the first returns the row and the following two return `Ok(None)`. -/
theorem claim_C6_witness :
    (runNexts ⟨[⟨1, [1], [2], [3], [4]⟩], [], [], 2⟩
        ⟨some [⟨1, [1], [2], [3], [4]⟩], some (), ⟨true, true, true⟩, none, 0⟩ 3)[0]? =
      some (.ok (([(⟨1, [1], [2], [3], [4]⟩ : DBRow)][(0 : Nat) + 0]?).map
        (rowToRecord ⟨[⟨1, [1], [2], [3], [4]⟩], [], [], 2⟩ ⟨true, true, true⟩))) ∧
    (runNexts ⟨[⟨1, [1], [2], [3], [4]⟩], [], [], 2⟩
        ⟨some [⟨1, [1], [2], [3], [4]⟩], some (), ⟨true, true, true⟩, none, 0⟩ 3)[2]? =
      some (.ok (([(⟨1, [1], [2], [3], [4]⟩ : DBRow)][(0 : Nat) + 2]?).map
        (rowToRecord ⟨[⟨1, [1], [2], [3], [4]⟩], [], [], 2⟩ ⟨true, true, true⟩))) :=
  ⟨(claim_C6 ⟨[⟨1, [1], [2], [3], [4]⟩], [], [], 2⟩
      ⟨some [⟨1, [1], [2], [3], [4]⟩], some (), ⟨true, true, true⟩, none, 0⟩ 3
      (fun _ => rfl)).2 [⟨1, [1], [2], [3], [4]⟩] rfl 0 (by omega),
   (claim_C6 ⟨[⟨1, [1], [2], [3], [4]⟩], [], [], 2⟩
      ⟨some [⟨1, [1], [2], [3], [4]⟩], some (), ⟨true, true, true⟩, none, 0⟩ 3
      (fun _ => rfl)).2 [⟨1, [1], [2], [3], [4]⟩] rfl 2 (by omega)⟩

/-- C2 witness: a concrete `add` with a duplicated tag name fails with
`ItemAlreadyExists`. -/
theorem claim_C2_witness :
    add ⟨[], [], [], 1⟩ [1] [2] ⟨[3], [4]⟩
      [Tag.encrypted [7] [8], Tag.encrypted [7] [9]] =
      .error .itemAlreadyExists :=
  (claim_C2 ⟨[], [], [], 1⟩ [1] [2] ⟨[3], [4]⟩
    [Tag.encrypted [7] [8], Tag.encrypted [7] [9]]).1 rfl rfl

/-
  Part 4: theorems about the remote/virtual backend.
-/

theorem callGetInternal_noToken (server : List ServerItem) (wn : String)
    (creds : RemoteWalletCredentials) (key : String)
    (hnt : creds.auth_token = none) :
    ∃ m, callGetInternal server wn creds key = .panicked m := by
  rcases hsp : splitSep key.data with _ | ⟨a, _ | ⟨b, _ | ⟨c, tl⟩⟩⟩
  · exact ⟨"Error invalid key " ++ key,
      by simp [callGetInternal, keyToItemTypeId, hsp]⟩
  · exact ⟨"Error invalid key " ++ key,
      by simp [callGetInternal, keyToItemTypeId, hsp]⟩
  · exact ⟨"Error no authentication token provided",
      by simp [callGetInternal, keyToItemTypeId, hsp, restAuthHeader, hnt]⟩
  · exact ⟨"Error invalid key " ++ key,
      by simp [callGetInternal, keyToItemTypeId, hsp]⟩

/-- C10: in the remote backend, every record-level operation that sends an
authenticated request — `set`, `get`, `list`, `get_not_expired` — panics
(rather than returning a typed error) when the credentials carry no
`auth_token`. -/
theorem claim_C10 (srv : ServerState) (now : Int) (w : RemoteWallet)
    (key value p : String) (hnt : w.credentials.auth_token = none) :
    (remoteSet srv now w key value).isPanicked = true ∧
    (remoteGet srv.items w key).isPanicked = true ∧
    (remoteList srv w p).isPanicked = true ∧
    (getNotExpired srv.items now w key).isPanicked = true := by
  obtain ⟨m, hm⟩ := callGetInternal_noToken srv.items
    (virtualWalletName w.wallet_name w.credentials) w.credentials key hnt
  refine ⟨?_, ?_, ?_, ?_⟩
  · rcases hsp : splitSep key.data with _ | ⟨a, _ | ⟨b, _ | ⟨c, tl⟩⟩⟩
    · simp [remoteSet, keyToItemTypeId, hsp, RemoteOutcome.isPanicked]
    · simp [remoteSet, keyToItemTypeId, hsp, RemoteOutcome.isPanicked]
    · simp [remoteSet, keyToItemTypeId, hsp, hm, RemoteOutcome.isPanicked]
    · simp [remoteSet, keyToItemTypeId, hsp, RemoteOutcome.isPanicked]
  · simp [remoteGet, remoteGetTrace, hm, RemoteOutcome.isPanicked]
  · rcases hsp : splitSep p.data with _ | ⟨a, tl⟩
    · simp [remoteList, keyPrefixToType, hsp, RemoteOutcome.isPanicked]
    · simp [remoteList, keyPrefixToType, hsp, restAuthHeader, hnt,
        RemoteOutcome.isPanicked]
  · rcases hsp : splitSep key.data with _ | ⟨a, _ | ⟨b, _ | ⟨c, tl⟩⟩⟩
    · simp [getNotExpired, keyToItemTypeId, hsp, RemoteOutcome.isPanicked]
    · simp [getNotExpired, keyToItemTypeId, hsp, RemoteOutcome.isPanicked]
    · simp [getNotExpired, keyToItemTypeId, hsp, restAuthHeader, hnt,
        RemoteOutcome.isPanicked]
    · simp [getNotExpired, keyToItemTypeId, hsp, RemoteOutcome.isPanicked]

/-- C10 witness: with token-less credentials, concrete `set`, `get`,
`list` and `get_not_expired` calls all panic. -/
theorem claim_C10_witness :
    (remoteSet ⟨[], 0⟩ 0 ⟨"w", "p", ⟨"e", 1000⟩, ⟨none, none⟩⟩ "a::b" "v").isPanicked = true ∧
    (remoteGet (⟨[], 0⟩ : ServerState).items ⟨"w", "p", ⟨"e", 1000⟩, ⟨none, none⟩⟩ "a::b").isPanicked = true ∧
    (remoteList ⟨[], 0⟩ ⟨"w", "p", ⟨"e", 1000⟩, ⟨none, none⟩⟩ "t::").isPanicked = true ∧
    (getNotExpired (⟨[], 0⟩ : ServerState).items 0 ⟨"w", "p", ⟨"e", 1000⟩, ⟨none, none⟩⟩ "a::b").isPanicked = true :=
  claim_C10 ⟨[], 0⟩ 0 ⟨"w", "p", ⟨"e", 1000⟩, ⟨none, none⟩⟩ "a::b" "v" "t::" rfl

/-- C8 counterexample: the key `"abc"` (zero `"::"` delimiters) passed to
the remote backend's `get` causes a panic, not a typed `InvalidStructure`
error, so the claim's stated error behaviour is false. -/
theorem claim_C8_counterexample :
    remoteGet [] ⟨"w", "p", ⟨"e", 1000⟩, ⟨some "tk", none⟩⟩ "abc" =
      .panicked "Error invalid key abc" ∧
    (remoteGet [] ⟨"w", "p", ⟨"e", 1000⟩, ⟨some "tk", none⟩⟩
      "abc").isInvalidStructureErr = false := by
  decide

/-- C8 (amended): in the remote backend, a key with zero or two-or-more
`"::"` delimiters passed to `set`, `get` or `get_not_expired` is rejected
by a panic carrying the invalid-key message (an unwind, not a typed
`InvalidStructure` error). -/
theorem claim_C8_amended (srv : ServerState) (server : List ServerItem)
    (now : Int) (w : RemoteWallet) (key value : String)
    (hbad : (splitSep key.toList).length ≠ 2) :
    remoteSet srv now w key value = .panicked ("Error invalid key " ++ key) ∧
    remoteGet server w key = .panicked ("Error invalid key " ++ key) ∧
    getNotExpired server now w key = .panicked ("Error invalid key " ++ key) := by
  have hkey0 : keyToItemTypeId key = .panicked ("Error invalid key " ++ key) := by
    simp only [String.toList] at hbad
    rcases hsp : splitSep key.data with _ | ⟨a, _ | ⟨b, _ | ⟨c, tl⟩⟩⟩
    · simp [keyToItemTypeId, hsp]
    · simp [keyToItemTypeId, hsp]
    · rw [hsp] at hbad
      simp at hbad
    · simp [keyToItemTypeId, hsp]
  refine ⟨?_, ?_, ?_⟩
  · simp [remoteSet, hkey0]
  · simp [remoteGet, remoteGetTrace, callGetInternal, hkey0]
  · simp [getNotExpired, hkey0]

/-- C8 witness (amended claim): the keys `"abc"` and `"a::b::c"` make
concrete `set`, `get` and `get_not_expired` calls panic with the
invalid-key message. -/
theorem claim_C8_amended_witness :
    (remoteSet ⟨[], 0⟩ 0 ⟨"w", "p", ⟨"e", 1000⟩, ⟨some "tk", none⟩⟩ "abc" "v" =
        .panicked ("Error invalid key " ++ "abc") ∧
      remoteGet [] ⟨"w", "p", ⟨"e", 1000⟩, ⟨some "tk", none⟩⟩ "abc" =
        .panicked ("Error invalid key " ++ "abc") ∧
      getNotExpired [] 0 ⟨"w", "p", ⟨"e", 1000⟩, ⟨some "tk", none⟩⟩ "abc" =
        .panicked ("Error invalid key " ++ "abc")) ∧
    (remoteSet ⟨[], 0⟩ 0 ⟨"w", "p", ⟨"e", 1000⟩, ⟨some "tk", none⟩⟩ "a::b::c" "v" =
        .panicked ("Error invalid key " ++ "a::b::c") ∧
      remoteGet [] ⟨"w", "p", ⟨"e", 1000⟩, ⟨some "tk", none⟩⟩ "a::b::c" =
        .panicked ("Error invalid key " ++ "a::b::c") ∧
      getNotExpired [] 0 ⟨"w", "p", ⟨"e", 1000⟩, ⟨some "tk", none⟩⟩ "a::b::c" =
        .panicked ("Error invalid key " ++ "a::b::c")) :=
  ⟨claim_C8_amended ⟨[], 0⟩ [] 0 ⟨"w", "p", ⟨"e", 1000⟩, ⟨some "tk", none⟩⟩
      "abc" "v" (by decide),
   claim_C8_amended ⟨[], 0⟩ [] 0 ⟨"w", "p", ⟨"e", 1000⟩, ⟨some "tk", none⟩⟩
      "a::b::c" "v" (by decide)⟩

/-- C9 counterexample: with `freshness_time = -1` (the config field is a
signed integer) and a record created at time 0 fetched at time 5, the code
surfaces `NotFound` even though `freshness_time > 0` does not hold — the
source tests `freshness_time != 0`, not `> 0`, so the claim's "exactly
when" is false at this input. -/
theorem claim_C9_counterexample :
    getNotExpired [⟨"w", "t", "k", "val", "1", 0⟩] 5
        ⟨"w", "p", ⟨"e", -1⟩, ⟨some "tk", none⟩⟩ "t::k" =
      .err (.notFound "t::k") ∧
    (⟨"w", "p", ⟨"e", -1⟩, ⟨some "tk", none⟩⟩ : RemoteWallet).config.freshness_time ≤ 0 := by
  decide

/-- C9 (amended): for a key whose unique server record exists with
creation timestamp `created`, the remote backend's `get_not_expired`
surfaces `NotFound` exactly when `freshness_time ≠ 0` and `now − created`
in whole seconds exceeds `freshness_time`; otherwise it returns the stored
item value. -/
theorem claim_C9_amended (server : List ServerItem) (now : Int)
    (w : RemoteWallet) (key ti tid tok : String)
    (htok : w.credentials.auth_token = some tok)
    (hkey : keyToItemTypeId key = .ok (ti, tid))
    (v : ServerItem)
    (hlook : serverLookup server (virtualWalletName w.wallet_name w.credentials)
      ti tid = [v]) :
    (getNotExpired server now w key = .err (.notFound key) ↔
      (w.config.freshness_time ≠ 0 ∧ now - v.created > w.config.freshness_time)) ∧
    ((w.config.freshness_time = 0 ∨ now - v.created ≤ w.config.freshness_time) →
      getNotExpired server now w key = .ok v.item_value) := by
  have hred : getNotExpired server now w key =
      if w.config.freshness_time != 0
          && decide (now - v.created > w.config.freshness_time) then
        .err (.notFound key)
      else
        .ok v.item_value := by
    simp only [getNotExpired, hkey, restAuthHeader, htok, hlook]
  by_cases hft : w.config.freshness_time = 0
  · have hcond : (w.config.freshness_time != 0
        && decide (now - v.created > w.config.freshness_time)) = false := by
      simp [hft]
    rw [hred, if_neg (by simp [hcond])]
    constructor
    · constructor
      · intro hcontra
        cases hcontra
      · rintro ⟨hne, -⟩
        exact absurd hft hne
    · intro _
      rfl
  · by_cases hgt : now - v.created > w.config.freshness_time
    · have hcond : (w.config.freshness_time != 0
          && decide (now - v.created > w.config.freshness_time)) = true := by
        simp [hft, hgt]
      rw [hred, if_pos hcond]
      constructor
      · constructor
        · intro _
          exact ⟨hft, hgt⟩
        · intro _
          rfl
      · intro hor
        rcases hor with h0 | hle
        · exact absurd h0 hft
        · omega
    · have hcond : (w.config.freshness_time != 0
          && decide (now - v.created > w.config.freshness_time)) = false := by
        simp [hgt]
      rw [hred, if_neg (by simp [hcond])]
      constructor
      · constructor
        · intro hcontra
          cases hcontra
        · rintro ⟨-, hg⟩
          exact absurd hg hgt
      · intro _
        rfl

/-- C9 witness (amended claim): a fresh record is returned, an expired one
surfaces `NotFound`. -/
theorem claim_C9_amended_witness :
    (getNotExpired [⟨"w", "t", "k", "val", "1", 0⟩] 5
        ⟨"w", "p", ⟨"e", 100⟩, ⟨some "tk", none⟩⟩ "t::k" = .ok "val") ∧
    (getNotExpired [⟨"w", "t", "k", "val", "1", 0⟩] 5
        ⟨"w", "p", ⟨"e", 2⟩, ⟨some "tk", none⟩⟩ "t::k" =
      .err (.notFound "t::k")) :=
  ⟨(claim_C9_amended [⟨"w", "t", "k", "val", "1", 0⟩] 5
      ⟨"w", "p", ⟨"e", 100⟩, ⟨some "tk", none⟩⟩ "t::k" "t" "k" "tk" rfl (by decide)
      ⟨"w", "t", "k", "val", "1", 0⟩ (by decide)).2 (by decide),
   (claim_C9_amended [⟨"w", "t", "k", "val", "1", 0⟩] 5
      ⟨"w", "p", ⟨"e", 2⟩, ⟨some "tk", none⟩⟩ "t::k" "t" "k" "tk" rfl (by decide)
      ⟨"w", "t", "k", "val", "1", 0⟩ (by decide)).1.mpr (by decide)⟩

/-- C7: the remote backend's `get` looks the key up in the current virtual
wallet first; a key present only in the root is returned from any distinct
virtual wallet via exactly one root retry; in the root wallet itself no
second lookup happens; and a retry occurs only when the first lookup
failed and the virtual wallet differs from the root. -/
theorem claim_C7 (server : List ServerItem) (w : RemoteWallet)
    (key ti tid tok : String)
    (htok : w.credentials.auth_token = some tok)
    (hkey : keyToItemTypeId key = .ok (ti, tid)) :
    ((serverLookup server (virtualWalletName w.wallet_name w.credentials) ti tid = [] →
      ∀ v, serverLookup server (rootWalletName w.wallet_name) ti tid = [v] →
      virtualWalletName w.wallet_name w.credentials ≠ rootWalletName w.wallet_name →
      remoteGetTrace server w key =
        (.ok v.item_value, [virtualWalletName w.wallet_name w.credentials,
                            rootWalletName w.wallet_name]))) ∧
    (virtualWalletName w.wallet_name w.credentials = rootWalletName w.wallet_name →
      (remoteGetTrace server w key).2 =
        [virtualWalletName w.wallet_name w.credentials]) ∧
    ((remoteGetTrace server w key).2 =
        [virtualWalletName w.wallet_name w.credentials] ∨
      ((remoteGetTrace server w key).2 =
          [virtualWalletName w.wallet_name w.credentials,
           rootWalletName w.wallet_name] ∧
        virtualWalletName w.wallet_name w.credentials ≠ rootWalletName w.wallet_name ∧
        ∃ e, callGetInternal server (virtualWalletName w.wallet_name w.credentials)
              w.credentials key = .err e)) := by
  refine ⟨?_, ?_, ?_⟩
  · intro hempty v hroot hne
    have hc1 : callGetInternal server (virtualWalletName w.wallet_name w.credentials)
        w.credentials key = .err (.notFound "Error Item not found") := by
      simp only [callGetInternal, hkey, restAuthHeader, htok, hempty]
    have hc2 : callGetInternal server (rootWalletName w.wallet_name)
        w.credentials key = .ok (v.id, v.item_value) := by
      simp only [callGetInternal, hkey, restAuthHeader, htok, hroot]
    have hiv : inVirtualWallet (rootWalletName w.wallet_name)
        (virtualWalletName w.wallet_name w.credentials) = true := by
      simp only [inVirtualWallet, bne_iff_ne, ne_eq]
      exact fun hcontra => hne hcontra.symm
    simp only [remoteGetTrace, hc1, hiv, if_true, hc2]
  · intro heq
    rcases hc : callGetInternal server (virtualWalletName w.wallet_name w.credentials)
        w.credentials key with a | e | m
    · simp only [remoteGetTrace, hc]
    · have hiv : inVirtualWallet (rootWalletName w.wallet_name)
          (virtualWalletName w.wallet_name w.credentials) = false := by
        simp [inVirtualWallet, heq]
      simp [remoteGetTrace, hc, hiv]
    · simp only [remoteGetTrace, hc]
  · rcases hc : callGetInternal server (virtualWalletName w.wallet_name w.credentials)
        w.credentials key with a | e | m
    · left
      simp only [remoteGetTrace, hc]
    · by_cases hiv : inVirtualWallet (rootWalletName w.wallet_name)
          (virtualWalletName w.wallet_name w.credentials) = true
      · right
        refine ⟨?_, ?_, e, rfl⟩
        · rcases hc2 : callGetInternal server (rootWalletName w.wallet_name)
              w.credentials key with a2 | e2 | m2 <;>
            simp [remoteGetTrace, hc, hiv, hc2]
        · have hne2 : rootWalletName w.wallet_name ≠
              virtualWalletName w.wallet_name w.credentials := by
            simpa [inVirtualWallet] using hiv
          exact fun hcontra => hne2 hcontra.symm
      · left
        have hiv' : inVirtualWallet (rootWalletName w.wallet_name)
            (virtualWalletName w.wallet_name w.credentials) = false :=
          eq_false_of_ne_true hiv
        simp [remoteGetTrace, hc, hiv']
    · left
      simp only [remoteGetTrace, hc]

/-- C7 witness: a key present only in the root wallet is fetched from a
distinct virtual wallet with the lookup trace `[virtual, root]`, and in
the root wallet itself the trace is a single lookup. -/
theorem claim_C7_witness :
    (remoteGetTrace [⟨"w", "t", "k", "rv", "1", 0⟩]
        ⟨"w", "p", ⟨"e", 1000⟩, ⟨some "tk", some "sub"⟩⟩ "t::k" =
      (.ok "rv", ["sub", "w"])) ∧
    (remoteGetTrace [⟨"w", "t", "k", "rv", "1", 0⟩]
        ⟨"w", "p", ⟨"e", 1000⟩, ⟨some "tk", none⟩⟩ "t::k").2 = ["w"] := by
  refine ⟨?_, ?_⟩
  · have h := (claim_C7 [⟨"w", "t", "k", "rv", "1", 0⟩]
      ⟨"w", "p", ⟨"e", 1000⟩, ⟨some "tk", some "sub"⟩⟩ "t::k" "t" "k" "tk"
      rfl (by decide)).1 (by decide) ⟨"w", "t", "k", "rv", "1", 0⟩ (by decide)
      (by decide)
    exact h
  · exact (claim_C7 [⟨"w", "t", "k", "rv", "1", 0⟩]
      ⟨"w", "p", ⟨"e", 1000⟩, ⟨some "tk", none⟩⟩ "t::k" "t" "k" "tk"
      rfl (by decide)).2.1 (by decide)

end IndyWallet
